import Mathlib

/-!
Shallow embedding of `src/email-sender.c` (a one-shot SMTP mailer) and
verification of its specification.  Text buffers of the C program are
modelled as `List Char` (one `Char` per byte; every relevant byte is
ASCII).  `malloc` outcomes and external I/O outcomes (file read,
libcurl handle creation, `curl_easy_perform`) are modelled as explicit
oracle parameters, since the C code only branches on their
success/failure.
-/

namespace EmailSender

/-- One step per input byte of the scan loop of `sanitize_crlf`
(email-sender.c lines 91-100).  The first argument is the previous
input byte `input[i-1]` (`none` at `i = 0`); a `'\n'` whose previous
input byte was not `'\r'` is replaced by `"\r\n"`, every other byte is
copied unchanged. -/
def sanitizeAux : Option Char → List Char → List Char
  | _, [] => []
  | prev, c :: rest =>
    if c = '\n' then
      (if prev = some '\r' then ['\n'] else ['\r', '\n']) ++ sanitizeAux (some c) rest
    else
      c :: sanitizeAux (some c) rest

/-- The function `sanitize_crlf` of email-sender.c (lines 84-104), on the
non-NULL, allocation-success path: ensure CRLF line endings (no bare LF). -/
def sanitize_crlf (input : List Char) : List Char :=
  sanitizeAux none input

/-- Count of the bare line feeds of a byte sequence: the `'\n'` bytes whose
immediately preceding byte is not `'\r'` (the first argument carries the
byte preceding the list, `none` at the start). -/
def bareLFAux : Option Char → List Char → Nat
  | _, [] => 0
  | prev, c :: rest =>
    (if c = '\n' ∧ prev ≠ some '\r' then 1 else 0) + bareLFAux (some c) rest

/-- Number of bare `'\n'` occurrences (those not immediately preceded by
`'\r'`) in a byte sequence. -/
def bareLFCount (input : List Char) : Nat :=
  bareLFAux none input

/-- Checks that a byte sequence contains no `'\n'` that is not immediately
preceded by `'\r'` (the first argument carries the byte preceding the
list, `none` at the start). -/
def noBareLFAux : Option Char → List Char → Bool
  | _, [] => true
  | prev, c :: rest => (!(c == '\n') || prev == some '\r') && noBareLFAux (some c) rest

/-- A byte sequence is in strict CRLF form: no bare line feed. -/
def noBareLF (l : List Char) : Bool :=
  noBareLFAux none l

/-- The byte preceding the position right after `l`, when `p` precedes `l`. -/
def prevAfter : Option Char → List Char → Option Char
  | p, [] => p
  | _, c :: rest => prevAfter (some c) rest

/-- Strict CRLF form, insensitive to the preceding byte.  Helper predicate
for reasoning about concatenations. -/
def NBall (l : List Char) : Prop :=
  ∀ p, noBareLFAux p l = true

/-- Embeds C `snprintf` specialised to the format strings of
email-sender.c, which use only the `%s` conversion: every `%s` is
replaced by the next argument, every other byte of the format is copied.
The `%` of the only format string modelled here is always followed by
`s`, so the catch-all branch (a `%` not starting a `%s` conversion) is
never taken. -/
def formatS : List Char → List (List Char) → List Char
  | [], _ => []
  | '%' :: 's' :: rest, arg :: args => arg ++ formatS rest args
  | '%' :: 's' :: rest, [] => formatS rest []
  | c :: rest, args => c :: formatS rest args

/-- The header format string `hdr_fmt` of `build_message_crlf`
(email-sender.c lines 148-155). -/
def hdr_fmt : List Char :=
  ("Date: %s\r\nFrom: <%s>\r\nTo: <%s>\r\nSubject: %s\r\nMIME-Version: 1.0\r\nContent-Type: text/html; charset=UTF-8\r\n\r\n").toList

/-- Broken-down UTC time as produced by `gmtime` (`struct tm`):
`tm_year` is years since 1900, `tm_mon` is 0-11, `tm_wday` is 0-6
(Sunday = 0). -/
structure Tm where
  tm_sec : Nat
  tm_min : Nat
  tm_hour : Nat
  tm_mday : Nat
  tm_mon : Nat
  tm_year : Nat
  tm_wday : Nat

/-- Abbreviated weekday names used by `strftime` conversion `%a`. -/
def wday_names : List String :=
  ["Sun", "Mon", "Tue", "Wed", "Thu", "Fri", "Sat"]

/-- Abbreviated month names used by `strftime` conversion `%b`. -/
def mon_names : List String :=
  ["Jan", "Feb", "Mar", "Apr", "May", "Jun", "Jul", "Aug", "Sep", "Oct", "Nov", "Dec"]

/-- Two-digit zero-padded decimal rendering, as produced by the
`strftime` conversions `%d`, `%H`, `%M`, `%S` on the in-range fields
that `gmtime` yields. -/
def fmt2 (n : Nat) : List Char :=
  [Nat.digitChar (n / 10 % 10), Nat.digitChar (n % 10)]

/-- Four-digit decimal rendering, as produced by the `strftime`
conversion `%Y` for the years 1000-9999 that `gmtime` yields for any
realistic clock value. -/
def fmt4 (n : Nat) : List Char :=
  [Nat.digitChar (n / 1000 % 10), Nat.digitChar (n / 100 % 10),
   Nat.digitChar (n / 10 % 10), Nat.digitChar (n % 10)]

/-- The function `rfc2822_date` of email-sender.c (lines 52-61): the
current UTC time formatted with the `strftime` format
`"%a, %d %b %Y %H:%M:%S +0000"`.  The wall-clock reading `time(NULL)`
plus `gmtime` is modelled by taking the broken-down UTC time as a
parameter; the `+0000` suffix is a literal of the format string, so the
rendered offset is `+0000` no matter what the local timezone is. -/
def rfc2822_date (t : Tm) : List Char :=
  (wday_names.getD t.tm_wday "Sun").toList ++ ", ".toList ++
  fmt2 t.tm_mday ++ " ".toList ++
  (mon_names.getD t.tm_mon "Jan").toList ++ " ".toList ++
  fmt4 (1900 + t.tm_year) ++ " ".toList ++
  fmt2 t.tm_hour ++ ":".toList ++ fmt2 t.tm_min ++ ":".toList ++ fmt2 t.tm_sec ++
  " +0000".toList

/-- The function `build_message_crlf` of email-sender.c (lines 138-191)
on the allocation-success path: it CRLF-sanitizes the subject and the
body, renders the header block with `snprintf` on `hdr_fmt` (whose
`header_len` is measured by a first `snprintf(NULL, 0, ...)` call and
exactly matches the rendered text), copies the sanitized body right
after the header, and reports `*out_len = header_len + body_crlf_len`.
The date argument stands for the `datebuf` filled by `rfc2822_date`.
Returns the message buffer paired with the reported `*out_len`. -/
def build_message_crlf (date fromAddr toAddr subject body : List Char) :
    List Char × Nat :=
  let subject_crlf := sanitize_crlf subject
  let body_crlf := sanitize_crlf body
  let header := formatS hdr_fmt [date, fromAddr, toAddr, subject_crlf]
  (header ++ body_crlf, header.length + body_crlf.length)

/-- The function `sanitize_crlf` with its `malloc` outcome made
explicit: when the allocation fails the C function returns NULL,
modelled as `none`. -/
def sanitize_crlf_alloc (allocOk : Bool) (input : List Char) : Option (List Char) :=
  if allocOk then some (sanitize_crlf input) else none

/-- The function `build_message_crlf` with the outcomes of its three
`malloc` calls (inside the subject sanitization, inside the body
sanitization, and for the message buffer itself) made explicit.  When
either sanitization or the final allocation fails, the C function frees
the intermediate buffers and returns NULL (`none`). -/
def build_message_crlf_alloc (aSubj aBody aMsg : Bool)
    (date fromAddr toAddr subject body : List Char) : Option (List Char × Nat) :=
  match sanitize_crlf_alloc aSubj subject, sanitize_crlf_alloc aBody body with
  | some subject_crlf, some body_crlf =>
    if aMsg then
      let header := formatS hdr_fmt [date, fromAddr, toAddr, subject_crlf]
      some (header ++ body_crlf, header.length + body_crlf.length)
    else
      none
  | _, _ => none

/-- Splits a byte sequence at every `"\r\n"` terminator, the line
structure a conforming mail parser sees.  Observer used to state the
header-line-count claims. -/
def splitCRLF : List Char → List (List Char)
  | [] => [[]]
  | '\r' :: '\n' :: rest => [] :: splitCRLF rest
  | c :: rest => (c :: (splitCRLF rest).headD []) :: (splitCRLF rest).tail

/-- The CRLF-terminated lines of the header block of a message: the
lines that precede the first blank line. -/
def headerLines (msg : List Char) : List (List Char) :=
  (splitCRLF msg).takeWhile (fun l => !l.isEmpty)

/-- Joins lines with `"\r\n"` terminators in front of a trailing rest.
Helper for reasoning about the line structure of composed messages. -/
def linesJoin : List (List Char) → List Char → List Char
  | [], r => r
  | l :: ls, r => l ++ '\r' :: '\n' :: linesJoin ls r

/-- The date layout required by the specification, spelled from its
words: three-letter weekday, comma, two-digit day, three-letter month,
four-digit year, `HH:MM:SS`, and the fixed UTC offset `+0000`. -/
def spec_date (t : Tm) : List Char :=
  (wday_names.getD t.tm_wday "Sun").toList ++ ", ".toList ++
  fmt2 t.tm_mday ++ " ".toList ++
  (mon_names.getD t.tm_mon "Jan").toList ++ " ".toList ++
  fmt4 (1900 + t.tm_year) ++ " ".toList ++
  fmt2 t.tm_hour ++ ":".toList ++ fmt2 t.tm_min ++ ":".toList ++ fmt2 t.tm_sec ++
  " +0000".toList

/-- The composed message as the specification describes it: the eight
pieces in order - `Date:` header, `From: <sender>`, `To: <recipient>`,
`Subject:` with the CRLF-sanitized subject, `MIME-Version: 1.0`,
`Content-Type: text/html; charset=UTF-8`, a blank CRLF line, and the
CRLF-sanitized body verbatim with no trailing terminator added. -/
def spec_message (t : Tm) (fromAddr toAddr subject body : List Char) : List Char :=
  "Date: ".toList ++ spec_date t ++ "\r\n".toList ++
  "From: <".toList ++ fromAddr ++ ">".toList ++ "\r\n".toList ++
  "To: <".toList ++ toAddr ++ ">".toList ++ "\r\n".toList ++
  "Subject: ".toList ++ sanitize_crlf subject ++ "\r\n".toList ++
  "MIME-Version: 1.0".toList ++ "\r\n".toList ++
  "Content-Type: text/html; charset=UTF-8".toList ++ "\r\n".toList ++
  "\r\n".toList ++
  sanitize_crlf body

/-- The required-flag check of `main` (email-sender.c line 249): the
program prints usage and exits 1 unless `from_name`, `from`, `to`,
`username`, `token` and `filename` were all supplied.  Each argument is
the parsed option value (`none` when the flag was absent). -/
def required_missing (from_name fromAddr toAddr username token filename :
    Option (List Char)) : Bool :=
  from_name.isNone || fromAddr.isNone || toAddr.isNone ||
    username.isNone || token.isNone || filename.isNone

/-- The exit code of `main` (email-sender.c lines 249-322) after option
parsing.  External outcomes are explicit parameters: `file_res` is the
`read_file` result (`none` on failure), `aSubj`/`aBody`/`aMsg` are the
`malloc` outcomes inside `build_message_crlf`, `init_ok` is whether
`curl_easy_init` returned a handle, and `perform_res` is the `CURLcode`
returned by `curl_easy_perform` (`0` = `CURLE_OK`).  The `--subject`
flag defaults to `"No subject"`; the message is built from the
`rfc2822_date` of the current time `t`. -/
def main_exit (from_name fromAddr toAddr subject username token filename :
    Option (List Char)) (t : Tm) (file_res : Option (List Char))
    (aSubj aBody aMsg : Bool) (init_ok : Bool) (perform_res : Nat) : Nat :=
  if required_missing from_name fromAddr toAddr username token filename then 1
  else
    match file_res with
    | none => 1
    | some body =>
      match build_message_crlf_alloc aSubj aBody aMsg (rfc2822_date t)
          (fromAddr.getD []) (toAddr.getD [])
          (subject.getD ("No subject").toList) body with
      | none => 1
      | some _ => if init_ok then perform_res else 1

/-- Decimal rendering of a C `int`, as produced by the `snprintf`
conversion `%d`. -/
def intToChars (n : Int) : List Char :=
  if n < 0 then '-' :: Nat.toDigits 10 n.natAbs else Nat.toDigits 10 n.toNat

/-- The full text `"smtp://<host>:<port>"` that `main` asks `snprintf`
to render into `url` (email-sender.c line 281). -/
def smtp_url_full (host : List Char) (port : Int) : List Char :=
  "smtp://".toList ++ host ++ ":".toList ++ intToChars port

/-- The connection URL actually handed to `curl_easy_setopt(CURLOPT_URL)`:
`snprintf(url, sizeof(url), ...)` with `char url[256]` keeps at most 255
bytes of the rendered text plus the terminating NUL. -/
def smtp_url (host : List Char) (port : Int) : List Char :=
  (smtp_url_full host port).take 255

end EmailSender

namespace EmailSender

theorem sanitizeAux_nil (p : Option Char) : sanitizeAux p [] = [] := rfl

theorem sanitizeAux_lf_cr (rest : List Char) :
    sanitizeAux (some '\r') ('\n' :: rest) = '\n' :: sanitizeAux (some '\n') rest := by
  simp [sanitizeAux]

theorem sanitizeAux_lf (p : Option Char) (rest : List Char) (hp : p ≠ some '\r') :
    sanitizeAux p ('\n' :: rest) = '\r' :: '\n' :: sanitizeAux (some '\n') rest := by
  simp [sanitizeAux, hp]

theorem sanitizeAux_other (p : Option Char) (c : Char) (rest : List Char) (hc : c ≠ '\n') :
    sanitizeAux p (c :: rest) = c :: sanitizeAux (some c) rest := by
  simp [sanitizeAux, hc]

theorem bareLFAux_cons (p : Option Char) (c : Char) (rest : List Char) :
    bareLFAux p (c :: rest) =
      (if c = '\n' ∧ p ≠ some '\r' then 1 else 0) + bareLFAux (some c) rest := rfl

theorem noBareLFAux_cons (p : Option Char) (c : Char) (rest : List Char) :
    noBareLFAux p (c :: rest) =
      ((!(c == '\n') || p == some '\r') && noBareLFAux (some c) rest) := rfl

theorem sanitizeAux_noBare (l : List Char) :
    ∀ p q, (p = some '\r' → q = some '\r') → noBareLFAux q (sanitizeAux p l) = true := by
  induction l with
  | nil => intro p q _; rfl
  | cons c rest ih =>
    intro p q h
    by_cases hc : c = '\n'
    · subst hc
      by_cases hp : p = some '\r'
      · have hq := h hp
        subst hq
        rw [hp, sanitizeAux_lf_cr, noBareLFAux_cons]
        have h1 : ((!(('\n' : Char) == '\n') || (some '\r' : Option Char) == some '\r')) = true := by
          decide
        rw [h1, Bool.true_and]
        exact ih (some '\n') (some '\n') (fun hh => hh)
      · rw [sanitizeAux_lf p rest hp, noBareLFAux_cons, noBareLFAux_cons]
        have h1 : (!(('\r' : Char) == '\n') || q == some '\r') = true := by
          have : (!(('\r' : Char) == '\n')) = true := by decide
          rw [this, Bool.true_or]
        have h2 : ((!(('\n' : Char) == '\n') || (some '\r' : Option Char) == some '\r')) = true := by
          decide
        rw [h1, h2, Bool.true_and, Bool.true_and]
        exact ih (some '\n') (some '\n') (fun hh => hh)
    · rw [sanitizeAux_other p c rest hc, noBareLFAux_cons]
      have h1 : (!(c == '\n') || q == some '\r') = true := by
        have : (!(c == '\n')) = true := by simp [hc]
        rw [this, Bool.true_or]
      rw [h1, Bool.true_and]
      exact ih (some c) (some c) (fun hh => hh)

theorem noBareLF_sanitize (input : List Char) :
    noBareLF (sanitize_crlf input) = true :=
  sanitizeAux_noBare input none none (by intro h; exact h)

theorem sanitizeAux_of_noBare (l : List Char) :
    ∀ p, noBareLFAux p l = true → sanitizeAux p l = l := by
  induction l with
  | nil => intro p _; rfl
  | cons c rest ih =>
    intro p h
    simp only [noBareLFAux, Bool.and_eq_true, Bool.or_eq_true, Bool.not_eq_true',
      beq_iff_eq, beq_eq_false_iff_ne] at h
    obtain ⟨h1, h2⟩ := h
    by_cases hc : c = '\n'
    · subst hc
      have hp : p = some '\r' := by
        rcases h1 with h1 | h1
        · exact absurd rfl h1
        · exact h1
      rw [hp, sanitizeAux_lf_cr, ih (some '\n') h2]
    · rw [sanitizeAux_other p c rest hc, ih (some c) h2]

theorem sanitizeAux_length (l : List Char) :
    ∀ p, (sanitizeAux p l).length = l.length + bareLFAux p l := by
  induction l with
  | nil => intro p; rfl
  | cons c rest ih =>
    intro p
    by_cases hc : c = '\n'
    · subst hc
      by_cases hp : p = some '\r'
      · rw [hp, sanitizeAux_lf_cr, bareLFAux_cons, if_neg (by intro hh; exact hh.2 rfl)]
        simp only [List.length_cons, ih]
        omega
      · rw [sanitizeAux_lf p rest hp, bareLFAux_cons, if_pos ⟨rfl, hp⟩]
        simp only [List.length_cons, ih]
        omega
    · rw [sanitizeAux_other p c rest hc, bareLFAux_cons, if_neg (by intro hh; exact hc hh.1)]
      simp only [List.length_cons, ih]
      omega

theorem bareLFAux_le_length (l : List Char) : ∀ p, bareLFAux p l ≤ l.length := by
  induction l with
  | nil => intro p; simp [bareLFAux]
  | cons c rest ih =>
    intro p
    simp only [bareLFAux, List.length_cons]
    have := ih (some c)
    split <;> omega

theorem sublist_sanitizeAux (l : List Char) : ∀ p, List.Sublist l (sanitizeAux p l) := by
  induction l with
  | nil => intro p; simp [sanitizeAux]
  | cons c rest ih =>
    intro p
    by_cases hc : c = '\n'
    · subst hc
      by_cases hp : p = some '\r'
      · rw [hp, sanitizeAux_lf_cr]
        exact List.Sublist.cons₂ _ (ih _)
      · rw [sanitizeAux_lf p rest hp]
        exact List.Sublist.cons _ (List.Sublist.cons₂ _ (ih _))
    · rw [sanitizeAux_other p c rest hc]
      exact List.Sublist.cons₂ _ (ih _)

theorem filter_sanitizeAux (l : List Char) :
    ∀ p, (sanitizeAux p l).filter (fun c => !(c == '\r')) =
      l.filter (fun c => !(c == '\r')) := by
  induction l with
  | nil => intro p; rfl
  | cons c rest ih =>
    intro p
    by_cases hc : c = '\n'
    · subst hc
      by_cases hp : p = some '\r'
      · rw [hp, sanitizeAux_lf_cr, List.filter_cons, List.filter_cons, ih (some '\n')]
      · have e1 : ((fun c => !(c == '\r')) '\r') = false := by decide
        have e2 : ((fun c => !(c == '\r')) '\n') = true := by decide
        rw [sanitizeAux_lf p rest hp, List.filter_cons, List.filter_cons, List.filter_cons,
          ih (some '\n')]
        simp only [e1, e2, if_true, Bool.false_eq_true, if_false]
    · rw [sanitizeAux_other p c rest hc, List.filter_cons, List.filter_cons, ih (some c)]

theorem count_sanitizeAux (l : List Char) :
    ∀ p, (sanitizeAux p l).count '\r' = l.count '\r' + bareLFAux p l := by
  induction l with
  | nil => intro p; rfl
  | cons c rest ih =>
    intro p
    have hne : ('\r' : Char) ≠ '\n' := by decide
    by_cases hc : c = '\n'
    · subst hc
      by_cases hp : p = some '\r'
      · rw [hp, sanitizeAux_lf_cr, bareLFAux_cons, if_neg (by intro hh; exact hh.2 rfl),
          List.count_cons_of_ne hne, List.count_cons_of_ne hne, ih (some '\n')]
        omega
      · rw [sanitizeAux_lf p rest hp, bareLFAux_cons, if_pos ⟨rfl, hp⟩,
          List.count_cons_self, List.count_cons_of_ne hne, List.count_cons_of_ne hne,
          ih (some '\n')]
        omega
    · rw [sanitizeAux_other p c rest hc, bareLFAux_cons, if_neg (by intro hh; exact hc hh.1)]
      by_cases hcr : c = '\r'
      · subst hcr
        rw [List.count_cons_self, List.count_cons_self, ih (some '\r')]
        omega
      · rw [List.count_cons_of_ne (by intro hh; exact hcr hh.symm),
          List.count_cons_of_ne (by intro hh; exact hcr hh.symm), ih (some c)]
        omega

theorem sanitizeAux_of_noLF (l : List Char) :
    ∀ p, '\n' ∉ l → sanitizeAux p l = l := by
  induction l with
  | nil => intro p _; rfl
  | cons c rest ih =>
    intro p h
    have hc : c ≠ '\n' := by
      intro hh; exact h (hh ▸ List.mem_cons_self c rest)
    rw [sanitizeAux_other p c rest hc, ih (some c) (fun hh => h (List.mem_cons_of_mem c hh))]

theorem formatS_nil (args : List (List Char)) : formatS [] args = [] := rfl

theorem formatS_pct (r : List Char) (arg : List Char) (args : List (List Char)) :
    formatS ('%' :: 's' :: r) (arg :: args) = arg ++ formatS r args := rfl

theorem formatS_cons (c : Char) (r : List Char) (args : List (List Char)) (hc : c ≠ '%') :
    formatS (c :: r) args = c :: formatS r args := by
  rw [formatS.eq_def]
  split <;> simp_all

theorem formatS_lit (l : List Char) :
    ∀ r args, '%' ∉ l → formatS (l ++ r) args = l ++ formatS r args := by
  induction l with
  | nil => intro r args _; rfl
  | cons c l2 ih =>
    intro r args h
    have hc : c ≠ '%' := fun hh => h (hh ▸ List.mem_cons_self c l2)
    rw [List.cons_append, formatS_cons c (l2 ++ r) args hc,
      ih r args (fun hh => h (List.mem_cons_of_mem c hh)), List.cons_append]

theorem formatS_lit_self (l : List Char) (args : List (List Char)) (h : '%' ∉ l) :
    formatS l args = l := by
  have h2 := formatS_lit l [] args h
  rw [List.append_nil] at h2
  rw [h2, formatS_nil, List.append_nil]

theorem build_eq_concat (date fromAddr toAddr subject body : List Char) :
    (build_message_crlf date fromAddr toAddr subject body).1 =
      "Date: ".toList ++ date ++ "\r\nFrom: <".toList ++ fromAddr ++ ">\r\nTo: <".toList ++
        toAddr ++ ">\r\nSubject: ".toList ++ sanitize_crlf subject ++
        "\r\nMIME-Version: 1.0\r\nContent-Type: text/html; charset=UTF-8\r\n\r\n".toList ++
        sanitize_crlf body := by
  have hf : hdr_fmt =
      "Date: ".toList ++ '%' :: 's' ::
        ("\r\nFrom: <".toList ++ '%' :: 's' ::
          (">\r\nTo: <".toList ++ '%' :: 's' ::
            (">\r\nSubject: ".toList ++ '%' :: 's' ::
              "\r\nMIME-Version: 1.0\r\nContent-Type: text/html; charset=UTF-8\r\n\r\n".toList))) := by
    rfl
  show formatS hdr_fmt [date, fromAddr, toAddr, sanitize_crlf subject] ++ sanitize_crlf body = _
  rw [hf, formatS_lit _ _ _ (by decide), formatS_pct,
      formatS_lit _ _ _ (by decide), formatS_pct,
      formatS_lit _ _ _ (by decide), formatS_pct,
      formatS_lit _ _ _ (by decide), formatS_pct,
      formatS_lit_self _ _ (by decide)]
  simp only [List.append_assoc]

theorem noBareLFAux_append (a : List Char) :
    ∀ p b, noBareLFAux p (a ++ b) = (noBareLFAux p a && noBareLFAux (prevAfter p a) b) := by
  induction a with
  | nil => intro p b; simp [noBareLFAux, prevAfter]
  | cons c a2 ih =>
    intro p b
    rw [List.cons_append, noBareLFAux_cons, noBareLFAux_cons, ih (some c) b, Bool.and_assoc]
    rfl

theorem noBareLFAux_head_ne (b : List Char) (h : b.head? ≠ some '\n') (p q : Option Char) :
    noBareLFAux p b = noBareLFAux q b := by
  cases b with
  | nil => rfl
  | cons c rest =>
    have hc : c ≠ '\n' := by
      intro hh
      exact h (by rw [hh]; rfl)
    rw [noBareLFAux_cons, noBareLFAux_cons]
    have e : (!(c == '\n')) = true := by simp [hc]
    rw [e, Bool.true_or, Bool.true_or]

theorem noBareLFAux_of_noLF (l : List Char) : ∀ p, '\n' ∉ l → noBareLFAux p l = true := by
  induction l with
  | nil => intro p _; rfl
  | cons c rest ih =>
    intro p h
    have hc : c ≠ '\n' := fun hh => h (hh ▸ List.mem_cons_self c rest)
    rw [noBareLFAux_cons]
    have e : (!(c == '\n')) = true := by simp [hc]
    rw [e, Bool.true_or, Bool.true_and]
    exact ih (some c) (fun hh => h (List.mem_cons_of_mem c hh))

theorem NBall_append {a b : List Char} (ha : NBall a) (hb : NBall b) : NBall (a ++ b) := by
  intro p
  rw [noBareLFAux_append a p b, ha p, hb (prevAfter p a)]
  rfl

theorem NBall_of_head (l : List Char) (h : l.head? ≠ some '\n')
    (h0 : noBareLFAux none l = true) : NBall l :=
  fun p => (noBareLFAux_head_ne l h p none).trans h0

theorem NBall_of_noLF (l : List Char) (h : '\n' ∉ l) : NBall l :=
  fun p => noBareLFAux_of_noLF l p h

theorem head?_sanitizeAux (l : List Char) (p : Option Char) (hp : p ≠ some '\r') :
    (sanitizeAux p l).head? ≠ some '\n' := by
  cases l with
  | nil => simp [sanitizeAux_nil]
  | cons c rest =>
    by_cases hc : c = '\n'
    · subst hc
      rw [sanitizeAux_lf p rest hp]
      simp
    · rw [sanitizeAux_other p c rest hc]
      simp [hc]

theorem NBall_sanitize (l : List Char) : NBall (sanitize_crlf l) :=
  NBall_of_head _ (head?_sanitizeAux l none (by simp))
    (sanitizeAux_noBare l none none (fun h => h))

theorem splitCRLF_nil : splitCRLF [] = [[]] := rfl

theorem splitCRLF_crlf (r : List Char) : splitCRLF ('\r' :: '\n' :: r) = [] :: splitCRLF r := rfl

theorem splitCRLF_cons_ne (c : Char) (r : List Char) (hc : c ≠ '\r') :
    splitCRLF (c :: r) = (c :: (splitCRLF r).headD []) :: (splitCRLF r).tail := by
  rw [splitCRLF.eq_def]
  split <;> simp_all

theorem splitCRLF_ne_nil (l : List Char) : splitCRLF l ≠ [] := by
  rw [splitCRLF.eq_def]
  split <;> simp

theorem splitCRLF_append_noCR (l : List Char) :
    ∀ r, '\r' ∉ l →
      splitCRLF (l ++ r) = (l ++ (splitCRLF r).headD []) :: (splitCRLF r).tail := by
  induction l with
  | nil =>
    intro r _
    obtain ⟨a, s, hs⟩ := List.exists_cons_of_ne_nil (splitCRLF_ne_nil r)
    rw [List.nil_append, hs]
    simp
  | cons c l2 ih =>
    intro r h
    have hc : c ≠ '\r' := fun hh => h (hh ▸ List.mem_cons_self c l2)
    rw [List.cons_append, splitCRLF_cons_ne c (l2 ++ r) hc,
      ih r (fun hh => h (List.mem_cons_of_mem c hh))]
    simp

theorem splitCRLF_line (l r : List Char) (h : '\r' ∉ l) :
    splitCRLF (l ++ '\r' :: '\n' :: r) = l :: splitCRLF r := by
  rw [splitCRLF_append_noCR l ('\r' :: '\n' :: r) h, splitCRLF_crlf]
  simp

theorem splitCRLF_linesJoin (ls : List (List Char)) :
    ∀ r, (∀ l ∈ ls, '\r' ∉ l) → splitCRLF (linesJoin ls r) = ls ++ splitCRLF r := by
  induction ls with
  | nil => intro r _; rfl
  | cons l ls2 ih =>
    intro r h
    show splitCRLF (l ++ '\r' :: '\n' :: linesJoin ls2 r) = (l :: ls2) ++ splitCRLF r
    rw [splitCRLF_line l _ (h l (List.mem_cons_self l ls2)),
      ih r (fun x hx => h x (List.mem_cons_of_mem l hx))]
    rfl

theorem sanitizeAux_break (l : List Char) :
    ∀ p r, '\n' ∉ l → '\r' ∉ l → (p ≠ some '\r' ∨ l ≠ []) →
      sanitizeAux p (l ++ '\n' :: r) = l ++ '\r' :: '\n' :: sanitizeAux (some '\n') r := by
  induction l with
  | nil =>
    intro p r _ _ h3
    have hp : p ≠ some '\r' := by
      rcases h3 with h | h
      · exact h
      · exact absurd rfl h
    rw [List.nil_append, sanitizeAux_lf p r hp, List.nil_append]
  | cons c l2 ih =>
    intro p r h1 h2 h3
    have hc : c ≠ '\n' := fun hh => h1 (hh ▸ List.mem_cons_self c l2)
    have hcr : c ≠ '\r' := fun hh => h2 (hh ▸ List.mem_cons_self c l2)
    rw [List.cons_append, sanitizeAux_other p c _ hc,
      ih (some c) r (fun hh => h1 (List.mem_cons_of_mem c hh))
        (fun hh => h2 (List.mem_cons_of_mem c hh))
        (Or.inl (fun hh => hcr (Option.some.inj hh))), List.cons_append]

theorem append_ne_nil_left (a b : List Char) (ha : a ≠ []) : a ++ b ≠ [] := by
  rcases a with _ | ⟨x, xs⟩
  · exact absurd rfl ha
  · rw [List.cons_append]
    exact List.cons_ne_nil x (xs ++ b)

theorem not_mem_append_chars {c : Char} (a b : List Char) (ha : c ∉ a) (hb : c ∉ b) :
    c ∉ a ++ b := by
  intro h
  rcases List.mem_append.mp h with h | h
  · exact ha h
  · exact hb h

theorem takeWhile_nonempty_prefix (ls rest : List (List Char)) :
    (∀ l ∈ ls, l ≠ []) →
    (ls ++ [] :: rest).takeWhile (fun l => !l.isEmpty) = ls := by
  induction ls with
  | nil => intro _; rfl
  | cons l ls2 ih =>
    intro h
    have hl : (!l.isEmpty) = true := by
      have := h l (List.mem_cons_self l ls2)
      rcases hx : l with _ | ⟨y, ys⟩
      · exact absurd hx this
      · rfl
    rw [List.cons_append,
      @List.takeWhile_cons_of_pos (List Char) (fun x => !x.isEmpty) l (ls2 ++ [] :: rest) hl,
      ih (fun x hx => h x (List.mem_cons_of_mem l hx))]

/-- C1: for every input byte sequence, the output of `sanitize_crlf`
contains no `'\n'` byte that is not immediately preceded by `'\r'`;
consequently the message buffer composed by `build_message_crlf` never
contains a bare line feed (in particular not in the subject header line
and not in the body), given that the date, from and to strings - which
the function embeds without sanitizing - are themselves free of `'\n'`,
as the `strftime`-rendered date and command-line addresses are. -/
theorem C1_normalization_completeness :
    (∀ input, noBareLF (sanitize_crlf input) = true) ∧
    (∀ date fromAddr toAddr subject body : List Char,
      '\n' ∉ date → '\n' ∉ fromAddr → '\n' ∉ toAddr →
      noBareLF (build_message_crlf date fromAddr toAddr subject body).1 = true) := by
  constructor
  · exact noBareLF_sanitize
  · intro date fromAddr toAddr subject body hd hf ht
    have n1 : NBall ("Date: ".toList) := NBall_of_head _ (by decide) (by decide)
    have n2 : NBall ("\r\nFrom: <".toList) := NBall_of_head _ (by decide) (by decide)
    have n3 : NBall (">\r\nTo: <".toList) := NBall_of_head _ (by decide) (by decide)
    have n4 : NBall (">\r\nSubject: ".toList) := NBall_of_head _ (by decide) (by decide)
    have n5 : NBall
        ("\r\nMIME-Version: 1.0\r\nContent-Type: text/html; charset=UTF-8\r\n\r\n".toList) :=
      NBall_of_head _ (by decide) (by decide)
    have hmsg : NBall ((build_message_crlf date fromAddr toAddr subject body).1) := by
      rw [build_eq_concat]
      simp only [List.append_assoc]
      exact NBall_append n1
        (NBall_append (NBall_of_noLF date hd)
          (NBall_append n2
            (NBall_append (NBall_of_noLF fromAddr hf)
              (NBall_append n3
                (NBall_append (NBall_of_noLF toAddr ht)
                  (NBall_append n4
                    (NBall_append (NBall_sanitize subject)
                      (NBall_append n5 (NBall_sanitize body)))))))))
    exact hmsg none

/-- Witness for C1 at concrete inputs. -/
theorem C1_normalization_completeness_witness :
    noBareLF (sanitize_crlf ("a\nb\r\nc".toList)) = true ∧
    noBareLF (build_message_crlf ("Tue, 05 Nov 2024 14:30:00 +0000".toList)
      ("a@x.com".toList) ("b@y.com".toList) ("Hi\nX: y".toList)
      ("<p>Hi</p>\n".toList)).1 = true :=
  ⟨C1_normalization_completeness.1 _,
   C1_normalization_completeness.2 _ _ _ _ _ (by decide) (by decide) (by decide)⟩

/-- C5: the length of the output of `sanitize_crlf` equals the input
length plus the number of bare `'\n'` occurrences of the input, and is
therefore at most twice the input length. -/
theorem C5_length_equation (input : List Char) :
    (sanitize_crlf input).length = input.length + bareLFCount input ∧
    (sanitize_crlf input).length ≤ 2 * input.length := by
  have h1 := sanitizeAux_length input none
  have h2 := bareLFAux_le_length input none
  constructor
  · exact h1
  · show (sanitizeAux none input).length ≤ 2 * input.length
    omega

/-- C6: an input already in strict CRLF form is returned byte-identical
by `sanitize_crlf`, and applying `sanitize_crlf` twice equals applying
it once. -/
theorem C6_idempotence :
    (∀ input, noBareLF input = true → sanitize_crlf input = input) ∧
    (∀ input, sanitize_crlf (sanitize_crlf input) = sanitize_crlf input) := by
  constructor
  · intro input h
    exact sanitizeAux_of_noBare input none h
  · intro input
    exact sanitizeAux_of_noBare (sanitize_crlf input) none (noBareLF_sanitize input)

/-- Witness for C6 at a concrete CRLF-clean input. -/
theorem C6_idempotence_witness :
    noBareLF ("ab\r\ncd".toList) = true ∧
    sanitize_crlf ("ab\r\ncd".toList) = "ab\r\ncd".toList :=
  ⟨by decide, C6_idempotence.1 _ (by decide)⟩

/-- C7: `sanitize_crlf` applies no transformation other than inserting
`'\r'` before bare `'\n'` bytes: empty input yields empty output, the
input is a sublist of the output (bytes are only inserted, so every
original byte - including any lone `'\r'` - passes through unchanged in
order), every inserted byte is a `'\r'` (removing all `'\r'` bytes from
input and output gives identical sequences), and exactly one `'\r'` is
inserted per bare `'\n'`. -/
theorem C7_insertion_only :
    sanitize_crlf [] = [] ∧
    (∀ input, List.Sublist input (sanitize_crlf input)) ∧
    (∀ input, (sanitize_crlf input).filter (fun c => !(c == '\r')) =
      input.filter (fun c => !(c == '\r'))) ∧
    (∀ input, (sanitize_crlf input).count '\r' = input.count '\r' + bareLFCount input) :=
  ⟨rfl, fun input => sublist_sanitizeAux input none,
   fun input => filter_sanitizeAux input none,
   fun input => count_sanitizeAux input none⟩

/-- C3: `build_message_crlf` either returns a buffer that is exactly the
rendered header block followed by the sanitized body - whose length, as
reported in `*out_len`, equals the header-block length plus the
sanitized-body length - or returns NULL when either sanitization step
fails; it never returns a partially-sanitized or truncated message. -/
theorem C3_length_and_failure (aSubj aBody aMsg : Bool)
    (date fromAddr toAddr subject body : List Char) :
    (∀ msg len,
      build_message_crlf_alloc aSubj aBody aMsg date fromAddr toAddr subject body =
          some (msg, len) →
        msg = formatS hdr_fmt [date, fromAddr, toAddr, sanitize_crlf subject] ++
            sanitize_crlf body ∧
        len = (formatS hdr_fmt [date, fromAddr, toAddr, sanitize_crlf subject]).length +
            (sanitize_crlf body).length ∧
        msg.length = len) ∧
    ((aSubj = false ∨ aBody = false) →
      build_message_crlf_alloc aSubj aBody aMsg date fromAddr toAddr subject body = none) := by
  constructor
  · intro msg len h
    cases aSubj with
    | false => simp [build_message_crlf_alloc, sanitize_crlf_alloc] at h
    | true =>
      cases aBody with
      | false => simp [build_message_crlf_alloc, sanitize_crlf_alloc] at h
      | true =>
        cases aMsg with
        | false => simp [build_message_crlf_alloc, sanitize_crlf_alloc] at h
        | true =>
          simp only [build_message_crlf_alloc, sanitize_crlf_alloc, if_true,
            Option.some.injEq, Prod.mk.injEq] at h
          obtain ⟨h1, h2⟩ := h
          subst h1
          subst h2
          exact ⟨rfl, rfl, List.length_append _ _⟩
  · intro h
    rcases h with h | h
    · subst h
      rfl
    · subst h
      cases aSubj <;> rfl

/-- Witness for C3 at concrete inputs: with every allocation succeeding
the reported length is the buffer length, and with the subject
sanitization failing the result is NULL. -/
theorem C3_length_and_failure_witness :
    ((build_message_crlf ("D".toList) ("f".toList) ("t".toList) ("s".toList)
        ("b\n".toList)).1).length =
      (build_message_crlf ("D".toList) ("f".toList) ("t".toList) ("s".toList)
        ("b\n".toList)).2 ∧
    build_message_crlf_alloc false true true ("D".toList) ("f".toList) ("t".toList)
      ("s".toList) ("b\n".toList) = none :=
  ⟨((C3_length_and_failure true true true ("D".toList) ("f".toList) ("t".toList)
      ("s".toList) ("b\n".toList)).1
      (build_message_crlf ("D".toList) ("f".toList) ("t".toList) ("s".toList)
        ("b\n".toList)).1
      (build_message_crlf ("D".toList) ("f".toList) ("t".toList) ("s".toList)
        ("b\n".toList)).2
      rfl).2.2,
   (C3_length_and_failure false true true ("D".toList) ("f".toList) ("t".toList)
      ("s".toList) ("b\n".toList)).2 (Or.inl rfl)⟩

/-- C4: the buffer returned by `build_message_crlf` is exactly the
concatenation, in order, of the `Date:` header (rendered in the fixed
three-letter-weekday / day / three-letter-month / four-digit-year /
HH:MM:SS / `+0000` layout), `From: <sender>`, `To: <recipient>`,
`Subject:` with the CRLF-sanitized subject, `MIME-Version: 1.0`,
`Content-Type: text/html; charset=UTF-8`, a blank CRLF line, and the
CRLF-sanitized body verbatim with no trailing terminator added; the
date text always ends in the fixed UTC offset `+0000`. -/
theorem C4_message_layout (t : Tm) (fromAddr toAddr subject body : List Char) :
    (build_message_crlf (rfc2822_date t) fromAddr toAddr subject body).1 =
      spec_message t fromAddr toAddr subject body ∧
    (∃ pre, rfc2822_date t = pre ++ " +0000".toList) := by
  constructor
  · rw [build_eq_concat]
    simp only [spec_message, spec_date, rfc2822_date]
    have e1 : ("\r\nFrom: <".toList : List Char) = "\r\n".toList ++ "From: <".toList := by
      decide
    have e2 : (">\r\nTo: <".toList : List Char) =
        ">".toList ++ "\r\n".toList ++ "To: <".toList := by decide
    have e3 : (">\r\nSubject: ".toList : List Char) =
        ">".toList ++ "\r\n".toList ++ "Subject: ".toList := by decide
    have e4 :
        ("\r\nMIME-Version: 1.0\r\nContent-Type: text/html; charset=UTF-8\r\n\r\n".toList :
          List Char) =
        "\r\n".toList ++ "MIME-Version: 1.0".toList ++ "\r\n".toList ++
          "Content-Type: text/html; charset=UTF-8".toList ++ "\r\n".toList ++
          "\r\n".toList := by decide
    rw [e1, e2, e3, e4]
    simp only [List.append_assoc]
  · refine ⟨(wday_names.getD t.tm_wday "Sun").toList ++ ", ".toList ++ fmt2 t.tm_mday ++
      " ".toList ++ (mon_names.getD t.tm_mon "Jan").toList ++ " ".toList ++
      fmt4 (1900 + t.tm_year) ++ " ".toList ++ fmt2 t.tm_hour ++ ":".toList ++
      fmt2 t.tm_min ++ ":".toList ++ fmt2 t.tm_sec, ?_⟩
    simp only [rfc2822_date, List.append_assoc]

/-- C2 counterexample: for the subject `"Hi\nX-Evil: pwn"` the composed
message does carry the embedded `'\n'` converted to `"\r\n"`, but that
very conversion makes the attacker-controlled text a well-formed
additional header line: the header block of the output has seven
non-blank lines - `X-Evil: pwn` among them - instead of the six defined
header lines, so additional header lines ARE introduced. -/
theorem C2_counterexample :
    ("X-Evil: pwn".toList ∈ headerLines (build_message_crlf
        ("Tue, 05 Nov 2024 14:30:00 +0000".toList) ("a@x.com".toList) ("b@y.com".toList)
        ("Hi\nX-Evil: pwn".toList) ("<p>Hi</p>\n".toList)).1) ∧
    (headerLines (build_message_crlf
        ("Tue, 05 Nov 2024 14:30:00 +0000".toList) ("a@x.com".toList) ("b@y.com".toList)
        ("Hi\nX-Evil: pwn".toList) ("<p>Hi</p>\n".toList)).1).length ≠ 6 := by
  constructor
  · decide
  · decide

/-- C2 as amended: for every subject of the form `s1 ++ '\n' :: s2`
(an embedded bare `'\n'` followed by an attacker-controlled header-like
line `s2`), the composed message carries that `'\n'` converted to
`"\r\n"` - not as a raw unescaped bare line feed - but the injected
text `s2` thereby becomes an additional CRLF-terminated header line:
the header block consists of the six defined header lines PLUS the
injected line, seven non-blank lines in all. -/
theorem C2_header_injection (date fromAddr toAddr s1 s2 body : List Char)
    (hdr : '\r' ∉ date) (hfr : '\r' ∉ fromAddr) (htr : '\r' ∉ toAddr)
    (hs1r : '\r' ∉ s1) (hs1n : '\n' ∉ s1)
    (hs2r : '\r' ∉ s2) (hs2n : '\n' ∉ s2) (hs2e : s2 ≠ []) :
    sanitize_crlf (s1 ++ '\n' :: s2) = s1 ++ '\r' :: '\n' :: s2 ∧
    headerLines (build_message_crlf date fromAddr toAddr (s1 ++ '\n' :: s2) body).1 =
      ["Date: ".toList ++ date,
       "From: <".toList ++ fromAddr ++ ">".toList,
       "To: <".toList ++ toAddr ++ ">".toList,
       "Subject: ".toList ++ s1,
       s2,
       "MIME-Version: 1.0".toList,
       "Content-Type: text/html; charset=UTF-8".toList] ∧
    (headerLines (build_message_crlf date fromAddr toAddr (s1 ++ '\n' :: s2) body).1).length =
      7 := by
  have hsan : sanitize_crlf (s1 ++ '\n' :: s2) = s1 ++ '\r' :: '\n' :: s2 := by
    show sanitizeAux none (s1 ++ '\n' :: s2) = s1 ++ '\r' :: '\n' :: s2
    rw [sanitizeAux_break s1 none s2 hs1n hs1r (Or.inl (by simp)),
      sanitizeAux_of_noLF s2 (some '\n') hs2n]
  have hmsg : (build_message_crlf date fromAddr toAddr (s1 ++ '\n' :: s2) body).1 =
      linesJoin
        ["Date: ".toList ++ date,
         "From: <".toList ++ fromAddr ++ ">".toList,
         "To: <".toList ++ toAddr ++ ">".toList,
         "Subject: ".toList ++ s1,
         s2,
         "MIME-Version: 1.0".toList,
         "Content-Type: text/html; charset=UTF-8".toList]
        ('\r' :: '\n' :: sanitize_crlf body) := by
    rw [build_eq_concat, hsan]
    have e1 : ("\r\nFrom: <".toList : List Char) = '\r' :: '\n' :: "From: <".toList := by
      decide
    have e2 : (">\r\nTo: <".toList : List Char) = '>' :: '\r' :: '\n' :: "To: <".toList := by
      decide
    have e3 : (">\r\nSubject: ".toList : List Char) =
        '>' :: '\r' :: '\n' :: "Subject: ".toList := by decide
    have e4 :
        ("\r\nMIME-Version: 1.0\r\nContent-Type: text/html; charset=UTF-8\r\n\r\n".toList :
          List Char) =
        '\r' :: '\n' :: ("MIME-Version: 1.0".toList ++
          '\r' :: '\n' :: ("Content-Type: text/html; charset=UTF-8".toList ++
            '\r' :: '\n' :: '\r' :: '\n' :: [])) := by decide
    have e5 : (">".toList : List Char) = ['>'] := by decide
    rw [e1, e2, e3, e4, e5]
    simp only [linesJoin, List.append_assoc, List.cons_append, List.nil_append]
  have hHL : headerLines (build_message_crlf date fromAddr toAddr (s1 ++ '\n' :: s2) body).1 =
      ["Date: ".toList ++ date,
       "From: <".toList ++ fromAddr ++ ">".toList,
       "To: <".toList ++ toAddr ++ ">".toList,
       "Subject: ".toList ++ s1,
       s2,
       "MIME-Version: 1.0".toList,
       "Content-Type: text/html; charset=UTF-8".toList] := by
    show ((splitCRLF (build_message_crlf date fromAddr toAddr (s1 ++ '\n' :: s2) body).1).takeWhile
        (fun l => !l.isEmpty)) = _
    rw [hmsg, splitCRLF_linesJoin _ _ ?hcond, splitCRLF_crlf]
    case hcond =>
      intro l hl
      simp only [List.mem_cons, List.not_mem_nil, or_false] at hl
      rcases hl with rfl | rfl | rfl | rfl | rfl | rfl | rfl
      · exact not_mem_append_chars _ _ (by decide) hdr
      · exact not_mem_append_chars _ _ (not_mem_append_chars _ _ (by decide) hfr) (by decide)
      · exact not_mem_append_chars _ _ (not_mem_append_chars _ _ (by decide) htr) (by decide)
      · exact not_mem_append_chars _ _ (by decide) hs1r
      · exact hs2r
      · decide
      · decide
    apply takeWhile_nonempty_prefix
    intro l hl
    simp only [List.mem_cons, List.not_mem_nil, or_false] at hl
    rcases hl with rfl | rfl | rfl | rfl | rfl | rfl | rfl
    · exact append_ne_nil_left _ _ (by decide)
    · exact append_ne_nil_left _ _ (append_ne_nil_left _ _ (by decide))
    · exact append_ne_nil_left _ _ (append_ne_nil_left _ _ (by decide))
    · exact append_ne_nil_left _ _ (by decide)
    · exact hs2e
    · decide
    · decide
  refine ⟨hsan, hHL, ?_⟩
  rw [hHL]
  rfl

/-- Witness for the amended C2 at a concrete injected subject. -/
theorem C2_header_injection_witness :
    sanitize_crlf ("Hi".toList ++ '\n' :: "X-Evil: pwn".toList) =
      "Hi".toList ++ '\r' :: '\n' :: "X-Evil: pwn".toList ∧
    (headerLines (build_message_crlf ("Tue, 05 Nov 2024 14:30:00 +0000".toList)
        ("a@x.com".toList) ("b@y.com".toList)
        ("Hi".toList ++ '\n' :: "X-Evil: pwn".toList) ("<p>Hi</p>\n".toList)).1).length = 7 :=
  ⟨(C2_header_injection ("Tue, 05 Nov 2024 14:30:00 +0000".toList) ("a@x.com".toList)
      ("b@y.com".toList) ("Hi".toList) ("X-Evil: pwn".toList) ("<p>Hi</p>\n".toList)
      (by decide) (by decide) (by decide) (by decide) (by decide) (by decide)
      (by decide) (by decide)).1,
   (C2_header_injection ("Tue, 05 Nov 2024 14:30:00 +0000".toList) ("a@x.com".toList)
      ("b@y.com".toList) ("Hi".toList) ("X-Evil: pwn".toList) ("<p>Hi</p>\n".toList)
      (by decide) (by decide) (by decide) (by decide) (by decide) (by decide)
      (by decide) (by decide)).2.2⟩

/-- C8: the process exit code is 0 exactly on successful submission; it
is 1 when the required-flag validation fails, when the body file cannot
be read, or when message composition fails; and when every earlier
stage succeeds it equals the numeric `CURLcode` of the single
`curl_easy_perform` submission attempt. -/
theorem C8_exit_codes (fn fr ta subj un tok fil : Option (List Char)) (t : Tm)
    (file_res : Option (List Char)) (aSubj aBody aMsg init_ok : Bool)
    (perform_res : Nat) :
    (main_exit fn fr ta subj un tok fil t file_res aSubj aBody aMsg init_ok perform_res = 0 ↔
      (required_missing fn fr ta un tok fil = false ∧ file_res.isSome = true ∧
        (aSubj && aBody && aMsg) = true ∧ init_ok = true ∧ perform_res = 0)) ∧
    (required_missing fn fr ta un tok fil = true →
      main_exit fn fr ta subj un tok fil t file_res aSubj aBody aMsg init_ok perform_res = 1) ∧
    (file_res = none →
      main_exit fn fr ta subj un tok fil t file_res aSubj aBody aMsg init_ok perform_res = 1) ∧
    ((aSubj && aBody && aMsg) = false →
      main_exit fn fr ta subj un tok fil t file_res aSubj aBody aMsg init_ok perform_res = 1) ∧
    (required_missing fn fr ta un tok fil = false → file_res.isSome = true →
      (aSubj && aBody && aMsg) = true → init_ok = true →
      main_exit fn fr ta subj un tok fil t file_res aSubj aBody aMsg init_ok perform_res =
        perform_res) := by
  cases hrm : required_missing fn fr ta un tok fil with
  | true => simp [main_exit, hrm]
  | false =>
    cases file_res with
    | none => simp [main_exit, hrm]
    | some body =>
      cases aSubj <;> cases aBody <;> cases aMsg <;> cases init_ok <;>
        simp [main_exit, hrm, build_message_crlf_alloc, sanitize_crlf_alloc]

/-- Witness for C8: a fully successful run exits with the transport
result, and a missing required flag exits 1. -/
theorem C8_exit_codes_witness :
    main_exit (some ("n".toList)) (some ("f@x.com".toList)) (some ("t@y.com".toList)) none
      (some ("u".toList)) (some ("k".toList)) (some ("b.html".toList))
      ⟨0, 30, 14, 5, 10, 124, 2⟩ (some ("<p>Hi</p>".toList)) true true true true 7 = 7 ∧
    main_exit (some ("n".toList)) none (some ("t@y.com".toList)) none
      (some ("u".toList)) (some ("k".toList)) (some ("b.html".toList))
      ⟨0, 30, 14, 5, 10, 124, 2⟩ none true true true true 0 = 1 :=
  ⟨(C8_exit_codes (some ("n".toList)) (some ("f@x.com".toList)) (some ("t@y.com".toList)) none
      (some ("u".toList)) (some ("k".toList)) (some ("b.html".toList))
      ⟨0, 30, 14, 5, 10, 124, 2⟩ (some ("<p>Hi</p>".toList)) true true true true
      7).2.2.2.2 rfl rfl rfl rfl,
   (C8_exit_codes (some ("n".toList)) none (some ("t@y.com".toList)) none
      (some ("u".toList)) (some ("k".toList)) (some ("b.html".toList))
      ⟨0, 30, 14, 5, 10, 124, 2⟩ none true true true true 0).2.1 rfl⟩

/-- C9: the claim says validation fails exactly when one of `--from`,
`--to`, `--username`, `--token`, `--file` is missing, and that supplying
all five lets the program proceed to read the body file.  The code
additionally requires the `from_name` option - absent from the usage
text, from the specification's CLI table, and unused by the message
builder (only the commented-out `build_message` took it) - so a run
that supplies all five documented required flags but no `--from_name`
still exits 1 at validation: evaluated here with every later stage set
to succeed, the exit code is 1 where the claim requires the run to
proceed (and, with a successful submission, to exit 0). -/
theorem C9_undocumented_from_name_check :
    main_exit none (some ("a@x.com".toList)) (some ("b@y.com".toList)) none
      (some ("user".toList)) (some ("tok".toList)) (some ("body.html".toList))
      ⟨0, 30, 14, 5, 10, 124, 2⟩ (some ("<p>Hi</p>".toList)) true true true true 0 = 1 := rfl

/-- C10: the URL handed to the transport layer is
`"smtp://<host>:<port>"` when that text fits in the 255 bytes the
`url[256]` buffer can hold beside the NUL; a longer rendering is
silently truncated by `snprintf` to its first 255 bytes, so the
connection target then differs from the requested one. -/
theorem C10_url_truncation (host : List Char) (port : Int) :
    ((smtp_url_full host port).length ≤ 255 →
      smtp_url host port = smtp_url_full host port) ∧
    (255 < (smtp_url_full host port).length →
      (smtp_url host port).length = 255 ∧
      smtp_url host port ≠ smtp_url_full host port ∧
      smtp_url host port = (smtp_url_full host port).take 255) := by
  constructor
  · intro h
    exact List.take_of_length_le h
  · intro h
    have h1 : (smtp_url host port).length = min 255 (smtp_url_full host port).length :=
      List.length_take 255 (smtp_url_full host port)
    refine ⟨by omega, ?_, rfl⟩
    intro heq
    rw [heq] at h1
    omega

set_option maxRecDepth 4000 in
/-- Witness for C10: the default server renders untruncated, while a
300-byte host name is cut to a 255-byte URL that no longer equals the
requested target. -/
theorem C10_url_truncation_witness :
    smtp_url ("smtp.office365.com".toList) 587 =
      smtp_url_full ("smtp.office365.com".toList) 587 ∧
    (smtp_url (List.replicate 300 'a') 587).length = 255 ∧
    smtp_url (List.replicate 300 'a') 587 ≠ smtp_url_full (List.replicate 300 'a') 587 :=
  ⟨(C10_url_truncation ("smtp.office365.com".toList) 587).1 (by decide),
   ((C10_url_truncation (List.replicate 300 'a') 587).2 (by decide)).1,
   ((C10_url_truncation (List.replicate 300 'a') 587).2 (by decide)).2.1⟩

end EmailSender
